import Mathlib

/-!
# Verification of the idmasker tokenizer service

The repository is a small Flask service (two near-duplicate variants,
`src/app.py` and `src/encryption-api.py`) that wraps one symmetric
authenticated-encryption key (`cryptography.fernet.Fernet`) and exposes
`encrypt` (seal), `decrypt` (open), `health`, `generate-key` and, in the
`app.py` variant, a `prefill` redirect endpoint.

Two layers are embedded here:

* The Tokenizer core (`seal` / `openTok`).  The Fernet library itself is
  not part of the repository sources, so the core transform is modelled
  from the specification: a token is the byte sequence
  `version(0x80) ++ timestamp(8 bytes) ++ nonce(16 bytes) ++ ciphertext
  ++ tag`, the ciphertext is a keystream-masked copy of the plaintext
  bytes, and the tag is a positional message-authentication code over the
  version/timestamp/nonce/ciphertext bytes keyed by the symmetric key.
  `openTok` re-derives the tag and refuses to decrypt (returns `none`,
  the `InvalidOrCorruptedToken` outcome — the model's only failure kind)
  whenever the framing is malformed, the version byte is unsupported, or
  the tag does not match.  The embedded timestamp is parsed but never
  checked, matching `cipher.decrypt(token)` being called without a `ttl`.

* The request handlers, translated statement by statement from the two
  Python files: key lookup (`get_cipher`), input validation, response
  construction (status code plus JSON body), and the `prefill`
  substring-replacement redirect.
-/

namespace IdMasker

/-- Modulus of the model's message-authentication code.  It only needs to
be larger than any byte value, smaller than `256^4` (the tag is stored in
four bytes), coprime to the polynomial base 257, and at least the size of
the key space. -/
def macP : Nat := 1000003

/-- Big-endian base-256 encoding of `n` into exactly `w` bytes
(truncating to `n % 256^w`). -/
def toBytesBE : Nat → Nat → List Nat
  | 0, _ => []
  | w + 1, n => toBytesBE w (n / 256) ++ [n % 256]

/-- Big-endian base-256 decoding. -/
def fromBytesBE (l : List Nat) : Nat := l.foldl (fun acc b => acc * 256 + b) 0

/-- Modelled from the spec: the keystream byte for position `i` under key
`k` and nonce `n` ("encrypt the plaintext bytes under the key and
nonce"). -/
def ks (k n i : Nat) : Nat := (k + n + i) % 256

/-- Mask a byte list with the keystream, starting at position `i`. -/
def encAux (k n : Nat) : Nat → List Nat → List Nat
  | _, [] => []
  | i, b :: rest => (b + ks k n i) % 256 :: encAux k n (i + 1) rest

/-- Unmask a byte list, starting at position `i`. -/
def decAux (k n : Nat) : Nat → List Nat → List Nat
  | _, [] => []
  | i, c :: rest => (c + 256 - ks k n i) % 256 :: decAux k n (i + 1) rest

/-- Positional polynomial hash of a byte list, reduced modulo `macP` at
every step.  A change of a single byte anywhere always changes the
value. -/
def polyEval : List Nat → Nat
  | [] => 0
  | b :: rest => (b + 257 * polyEval rest) % macP

/-- Modelled from the spec: the authentication tag "over the ciphertext
and associated metadata such as a format/version byte and a timestamp",
keyed by `k`. -/
def mac (k : Nat) (m : List Nat) : Nat := (polyEval m + k) % macP

/-- Modelled from the spec: `seal` encodes the concatenation
`(version, timestamp, nonce, ciphertext, tag)` into a single token. -/
def sealTok (pt : List Nat) (k ts n : Nat) : List Nat :=
  let body := 128 :: (toBytesBE 8 ts ++ (toBytesBE 16 n ++ encAux k n 0 pt))
  body ++ toBytesBE 4 (mac k body)

/-- Modelled from the spec: `openTok` decodes the framing, rejects
malformed framing (too short, unsupported version byte) without
attempting decryption, verifies the authentication tag, and only then
decrypts.  `none` is the `InvalidOrCorruptedToken` outcome; the embedded
timestamp is never inspected (no expiry, as in
`cipher.decrypt(survey.encode())` with no `ttl`). -/
def openTok (t : List Nat) (k : Nat) : Option (List Nat) :=
  if t.length < 29 then none
  else
    let body := t.take (t.length - 4)
    let tg := t.drop (t.length - 4)
    match body with
    | [] => none
    | v :: rest =>
      if v = 128 then
        if tg = toBytesBE 4 (mac k (v :: rest)) then
          some (decAux k (fromBytesBE ((rest.drop 8).take 16)) 0 (rest.drop 24))
        else none
      else none

/-! ## Byte-codec and keystream lemmas -/

theorem length_toBytesBE (w n : Nat) : (toBytesBE w n).length = w := by
  induction w generalizing n with
  | zero => rfl
  | succ w ih => simp [toBytesBE, ih]

theorem mem_toBytesBE_lt (w n : Nat) : ∀ b ∈ toBytesBE w n, b < 256 := by
  induction w generalizing n with
  | zero => intro b hb; simp [toBytesBE] at hb
  | succ w ih =>
    intro b hb
    simp only [toBytesBE, List.mem_append, List.mem_singleton] at hb
    rcases hb with h | h
    · exact ih _ _ h
    · exact h ▸ Nat.mod_lt _ (by omega)

theorem fromBytesBE_toBytesBE (w n : Nat) :
    fromBytesBE (toBytesBE w n) = n % 256 ^ w := by
  induction w generalizing n with
  | zero => simp [toBytesBE, fromBytesBE, Nat.mod_one]
  | succ w ih =>
    have hsplit : fromBytesBE (toBytesBE w (n / 256) ++ [n % 256])
        = fromBytesBE (toBytesBE w (n / 256)) * 256 + n % 256 := by
      simp [fromBytesBE, List.foldl_append]
    rw [toBytesBE, hsplit, ih, pow_succ, Nat.mul_comm (256 ^ w) 256, Nat.mod_mul]
    omega

theorem toBytesBE_inj {w n m : Nat} (hn : n < 256 ^ w) (hm : m < 256 ^ w)
    (h : toBytesBE w n = toBytesBE w m) : n = m := by
  have h1 := fromBytesBE_toBytesBE w n
  have h2 := fromBytesBE_toBytesBE w m
  rw [h, h2, Nat.mod_eq_of_lt hm] at h1
  rw [Nat.mod_eq_of_lt hn] at h1
  omega

theorem length_encAux (k n i : Nat) (l : List Nat) :
    (encAux k n i l).length = l.length := by
  induction l generalizing i with
  | nil => rfl
  | cons b rest ih => simp [encAux, ih]

theorem mem_encAux_lt (k n i : Nat) (l : List Nat) :
    ∀ b ∈ encAux k n i l, b < 256 := by
  induction l generalizing i with
  | nil => intro b hb; simp [encAux] at hb
  | cons c rest ih =>
    intro b hb
    simp only [encAux, List.mem_cons] at hb
    rcases hb with h | h
    · exact h ▸ Nat.mod_lt _ (by omega)
    · exact ih _ _ h

theorem decAux_encAux (k n i : Nat) (l : List Nat) (h : ∀ b ∈ l, b < 256) :
    decAux k n i (encAux k n i l) = l := by
  induction l generalizing i with
  | nil => rfl
  | cons b rest ih =>
    have hb : b < 256 := h b (List.mem_cons_self _ _)
    have hks : ks k n i < 256 := Nat.mod_lt _ (by omega)
    simp only [encAux, decAux, List.cons.injEq]
    refine ⟨by omega, ih _ fun x hx => h x (List.mem_cons_of_mem _ hx)⟩

/-! ## MAC lemmas -/

theorem polyEval_lt (l : List Nat) : polyEval l < macP := by
  cases l with
  | nil => simp [polyEval, macP]
  | cons b rest =>
    simp only [polyEval]
    exact Nat.mod_lt _ (by simp [macP])

theorem mac_lt (k : Nat) (m : List Nat) : mac k m < macP := by
  unfold mac
  exact Nat.mod_lt _ (by simp [macP])

/-- Changing a single byte of a byte list always changes its polynomial
hash: the base 257 is a unit modulo `macP` and distinct bytes stay
distinct modulo `macP`. -/
theorem polyEval_set_ne (l : List Nat) (i : Nat) (hi : i < l.length) (b' : Nat)
    (hb' : b' < 256) (hl : l.get ⟨i, hi⟩ < 256) (hne : b' ≠ l.get ⟨i, hi⟩) :
    polyEval (l.set i b') ≠ polyEval l := by
  induction l generalizing i with
  | nil => simp at hi
  | cons a rest ih =>
    cases i with
    | zero =>
      simp only [List.get] at hl hne
      intro heq
      simp only [List.set, polyEval] at heq
      have h1 : b' ≡ a [MOD macP] :=
        Nat.ModEq.add_right_cancel' (257 * polyEval rest) heq
      have h2 : b' % macP = a % macP := h1
      rw [Nat.mod_eq_of_lt (by simp [macP]; omega),
        Nat.mod_eq_of_lt (by simp [macP]; omega)] at h2
      exact hne h2
    | succ j =>
      intro heq
      simp only [List.set, polyEval] at heq
      have h1 : 257 * polyEval (rest.set j b') ≡ 257 * polyEval rest [MOD macP] :=
        Nat.ModEq.add_left_cancel' a heq
      have h2 : polyEval (rest.set j b') ≡ polyEval rest [MOD macP] :=
        Nat.ModEq.cancel_left_of_coprime (by decide) h1
      have h3 : polyEval (rest.set j b') % macP = polyEval rest % macP := h2
      rw [Nat.mod_eq_of_lt (polyEval_lt _), Nat.mod_eq_of_lt (polyEval_lt _)] at h3
      have hj : j < rest.length := by simpa using hi
      exact ih j hj hl hne h3

/-- Changing a single byte of the authenticated content changes the MAC. -/
theorem mac_set_ne (k : Nat) (l : List Nat) (i : Nat) (hi : i < l.length) (b' : Nat)
    (hb' : b' < 256) (hl : l.get ⟨i, hi⟩ < 256) (hne : b' ≠ l.get ⟨i, hi⟩) :
    mac k (l.set i b') ≠ mac k l := by
  unfold mac
  intro heq
  have h1 : polyEval (l.set i b') ≡ polyEval l [MOD macP] :=
    Nat.ModEq.add_right_cancel' k heq
  have h2 : polyEval (l.set i b') % macP = polyEval l % macP := h1
  rw [Nat.mod_eq_of_lt (polyEval_lt _), Nat.mod_eq_of_lt (polyEval_lt _)] at h2
  exact polyEval_set_ne l i hi b' hb' hl hne h2

/-- Distinct valid keys authenticate the same content with distinct tags. -/
theorem mac_key_ne (m : List Nat) {k1 k2 : Nat} (h1 : k1 < macP) (h2 : k2 < macP)
    (hne : k1 ≠ k2) : mac k1 m ≠ mac k2 m := by
  unfold mac
  intro heq
  have hm : k1 ≡ k2 [MOD macP] := Nat.ModEq.add_left_cancel' (polyEval m) heq
  have hm2 : k1 % macP = k2 % macP := hm
  rw [Nat.mod_eq_of_lt h1, Nat.mod_eq_of_lt h2] at hm2
  exact hne hm2

theorem macP_lt_pow4 : macP < 256 ^ 4 := by norm_num [macP]

/-- Distinct MAC values give distinct four-byte tag encodings. -/
theorem toBytes4_mac_ne {k1 k2 : Nat} {m1 m2 : List Nat} (h : mac k1 m1 ≠ mac k2 m2) :
    toBytesBE 4 (mac k1 m1) ≠ toBytesBE 4 (mac k2 m2) := fun he =>
  h (toBytesBE_inj (lt_trans (mac_lt _ _) macP_lt_pow4)
    (lt_trans (mac_lt _ _) macP_lt_pow4) he)

/-! ## Token structure lemmas -/

/-- The authenticated part of a token: version, timestamp, nonce,
ciphertext. -/
def sealBody (pt : List Nat) (k ts n : Nat) : List Nat :=
  128 :: (toBytesBE 8 ts ++ (toBytesBE 16 n ++ encAux k n 0 pt))

theorem sealTok_def (pt : List Nat) (k ts n : Nat) :
    sealTok pt k ts n = sealBody pt k ts n ++ toBytesBE 4 (mac k (sealBody pt k ts n)) := rfl

theorem length_sealBody (pt : List Nat) (k ts n : Nat) :
    (sealBody pt k ts n).length = 25 + pt.length := by
  simp [sealBody, length_toBytesBE, length_encAux]
  omega

theorem length_sealTok (pt : List Nat) (k ts n : Nat) :
    (sealTok pt k ts n).length = 29 + pt.length := by
  rw [sealTok_def]
  simp [length_sealBody, length_toBytesBE]
  omega

theorem mem_sealBody_lt (pt : List Nat) (k ts n : Nat) :
    ∀ b ∈ sealBody pt k ts n, b < 256 := by
  intro b hmem
  simp only [sealBody, List.mem_cons, List.mem_append] at hmem
  rcases hmem with h | h | h | h
  · omega
  · exact mem_toBytesBE_lt 8 ts b h
  · exact mem_toBytesBE_lt 16 n b h
  · exact mem_encAux_lt k n 0 pt b h

/-- Reduction of `openTok` once the length check passes and the
authenticated part is exposed as a cons cell. -/
theorem openTok_body_cons (t : List Nat) (k : Nat) (h : ¬ t.length < 29)
    (v : Nat) (rest : List Nat) (hb : t.take (t.length - 4) = v :: rest) :
    openTok t k =
      if v = 128 then
        if t.drop (t.length - 4) = toBytesBE 4 (mac k (v :: rest)) then
          some (decAux k (fromBytesBE ((rest.drop 8).take 16)) 0 (rest.drop 24))
        else none
      else none := by
  simp only [openTok]
  rw [if_neg h, hb]

theorem openTok_short (t : List Nat) (k : Nat) (h : t.length < 29) :
    openTok t k = none := by
  simp [openTok, h]

theorem take_append_sub4 (l1 l2 : List Nat) (h : l2.length = 4) :
    (l1 ++ l2).take ((l1 ++ l2).length - 4) = l1 := by
  have h4 : (l1 ++ l2).length - 4 = l1.length := by simp [List.length_append, h]
  rw [h4]
  exact List.take_left' rfl

theorem drop_append_sub4 (l1 l2 : List Nat) (h : l2.length = 4) :
    (l1 ++ l2).drop ((l1 ++ l2).length - 4) = l2 := by
  have h4 : (l1 ++ l2).length - 4 = l1.length := by simp [List.length_append, h]
  rw [h4]
  exact List.drop_left' rfl

/-- The central positive fact: opening an authentic token under the
sealing key recovers the plaintext bytes, whatever the embedded
timestamp is. -/
theorem openTok_sealTok (pt : List Nat) (k ts n : Nat) (hb : ∀ b ∈ pt, b < 256)
    (hn : n < 2 ^ 128) : openTok (sealTok pt k ts n) k = some pt := by
  have hlt := length_sealTok pt k ts n
  have h29 : ¬ (sealTok pt k ts n).length < 29 := by omega
  have htake : (sealTok pt k ts n).take ((sealTok pt k ts n).length - 4)
      = 128 :: (toBytesBE 8 ts ++ (toBytesBE 16 n ++ encAux k n 0 pt)) := by
    rw [sealTok_def]
    exact take_append_sub4 _ _ (length_toBytesBE 4 _)
  have hdrop : (sealTok pt k ts n).drop ((sealTok pt k ts n).length - 4)
      = toBytesBE 4 (mac k (128 :: (toBytesBE 8 ts ++ (toBytesBE 16 n ++ encAux k n 0 pt)))) := by
    rw [sealTok_def]
    exact drop_append_sub4 _ _ (length_toBytesBE 4 _)
  rw [openTok_body_cons _ _ h29 _ _ htake, if_pos rfl, if_pos hdrop]
  have h8 : (toBytesBE 8 ts ++ (toBytesBE 16 n ++ encAux k n 0 pt)).drop 8
      = toBytesBE 16 n ++ encAux k n 0 pt := List.drop_left' (length_toBytesBE 8 ts)
  have h24 : (toBytesBE 8 ts ++ (toBytesBE 16 n ++ encAux k n 0 pt)).drop 24
      = ((toBytesBE 8 ts ++ (toBytesBE 16 n ++ encAux k n 0 pt)).drop 8).drop 16 := by
    rw [List.drop_drop]
  rw [h8, h24, h8, List.take_left' (length_toBytesBE 16 n),
    List.drop_left' (length_toBytesBE 16 n), fromBytesBE_toBytesBE]
  have hpow : (256 : Nat) ^ 16 = 2 ^ 128 := by norm_num
  rw [hpow, Nat.mod_eq_of_lt hn, decAux_encAux k n 0 pt hb]

/-- Auxiliary tamper lemma over the explicit token shape
`(128 :: R) ++ tag`: replacing any byte by a different byte value makes
`openTok` reject. -/
theorem openTok_modified_aux (R T : List Nat) (k i b' : Nat)
    (hR : 24 ≤ R.length)
    (hT : T = toBytesBE 4 (mac k (128 :: R)))
    (hbytes : ∀ b ∈ (128 :: R), b < 256)
    (hi : i < ((128 :: R) ++ T).length) (hb' : b' < 256)
    (hne : b' ≠ ((128 :: R) ++ T).get ⟨i, hi⟩) :
    openTok (((128 :: R) ++ T).set i b') k = none := by
  subst hT
  have hlT : (toBytesBE 4 (mac k (128 :: R))).length = 4 := length_toBytesBE 4 _
  by_cases hcase : i < (128 :: R).length
  · -- the modified byte lies in the authenticated part
    have hset : ((128 :: R) ++ toBytesBE 4 (mac k (128 :: R))).set i b'
        = (128 :: R).set i b' ++ toBytesBE 4 (mac k (128 :: R)) :=
      List.set_append_left i b' hcase
    rw [hset]
    have h29 : ¬ ((128 :: R).set i b' ++ toBytesBE 4 (mac k (128 :: R))).length < 29 := by
      simp only [List.length_append, List.length_set, List.length_cons, hlT]
      omega
    have htake := take_append_sub4 ((128 :: R).set i b')
      (toBytesBE 4 (mac k (128 :: R))) hlT
    have hgetB : ((128 :: R) ++ toBytesBE 4 (mac k (128 :: R))).get ⟨i, hi⟩
        = (128 :: R).get ⟨i, hcase⟩ := List.getElem_append_left hcase
    rw [hgetB] at hne
    cases i with
    | zero =>
      have htake2 : ((128 :: R).set 0 b' ++ toBytesBE 4 (mac k (128 :: R))).take
          (((128 :: R).set 0 b' ++ toBytesBE 4 (mac k (128 :: R))).length - 4)
          = b' :: R := htake
      rw [openTok_body_cons _ _ h29 _ _ htake2]
      have hv : b' ≠ 128 := by simpa using hne
      rw [if_neg hv]
    | succ j =>
      have htake2 : ((128 :: R).set (j + 1) b' ++ toBytesBE 4 (mac k (128 :: R))).take
          (((128 :: R).set (j + 1) b' ++ toBytesBE 4 (mac k (128 :: R))).length - 4)
          = 128 :: R.set j b' := htake
      rw [openTok_body_cons _ _ h29 _ _ htake2, if_pos rfl]
      have hdrop := drop_append_sub4 ((128 :: R).set (j + 1) b')
        (toBytesBE 4 (mac k (128 :: R))) hlT
      have hByte : (128 :: R).get ⟨j + 1, hcase⟩ < 256 :=
        hbytes _ (List.get_mem _ _ _)
      have hmacne : mac k (128 :: R.set j b') ≠ mac k (128 :: R) :=
        mac_set_ne k (128 :: R) (j + 1) hcase b' hb' hByte hne
      have hcond : ((128 :: R).set (j + 1) b' ++ toBytesBE 4 (mac k (128 :: R))).drop
          (((128 :: R).set (j + 1) b' ++ toBytesBE 4 (mac k (128 :: R))).length - 4)
          ≠ toBytesBE 4 (mac k (128 :: R.set j b')) := by
        rw [hdrop]
        exact (toBytes4_mac_ne hmacne).symm
      rw [if_neg hcond]
  · -- the modified byte lies in the tag
    push_neg at hcase
    have hset : ((128 :: R) ++ toBytesBE 4 (mac k (128 :: R))).set i b'
        = (128 :: R) ++ (toBytesBE 4 (mac k (128 :: R))).set (i - (128 :: R).length) b' :=
      List.set_append_right i b' hcase
    rw [hset]
    have hlTs : ((toBytesBE 4 (mac k (128 :: R))).set (i - (128 :: R).length) b').length = 4 := by
      simp [List.length_set, hlT]
    have h29 : ¬ ((128 :: R) ++ (toBytesBE 4 (mac k (128 :: R))).set
        (i - (128 :: R).length) b').length < 29 := by
      simp only [List.length_append, List.length_set, List.length_cons, hlT]
      omega
    have htake2 : ((128 :: R) ++ (toBytesBE 4 (mac k (128 :: R))).set
          (i - (128 :: R).length) b').take
        (((128 :: R) ++ (toBytesBE 4 (mac k (128 :: R))).set
          (i - (128 :: R).length) b').length - 4)
        = 128 :: R :=
      take_append_sub4 _ _ hlTs
    rw [openTok_body_cons _ _ h29 _ _ htake2, if_pos rfl]
    have hdrop := drop_append_sub4 (128 :: R)
      ((toBytesBE 4 (mac k (128 :: R))).set (i - (128 :: R).length) b') hlTs
    have hj : i - (128 :: R).length < (toBytesBE 4 (mac k (128 :: R))).length := by
      simp only [List.length_append, hlT] at hi
      simp only [hlT]
      omega
    have hgetT : ((128 :: R) ++ toBytesBE 4 (mac k (128 :: R))).get ⟨i, hi⟩
        = (toBytesBE 4 (mac k (128 :: R))).get ⟨i - (128 :: R).length, hj⟩ :=
      List.getElem_append_right hcase
    rw [hgetT] at hne
    have hcond : (toBytesBE 4 (mac k (128 :: R))).set (i - (128 :: R).length) b'
        ≠ toBytesBE 4 (mac k (128 :: R)) := by
      intro heq
      have h2 := congrArg (fun l : List Nat => l[i - (128 :: R).length]?) heq
      simp only at h2
      rw [List.getElem?_set_self hj, List.getElem?_eq_getElem hj] at h2
      exact hne (Option.some.inj h2)
    rw [hdrop, if_neg hcond]

/-- The sixteen nonce bytes sit at offsets 9..24 of every token. -/
theorem sealTok_nonce_slice (pt : List Nat) (k ts n : Nat) :
    ((sealTok pt k ts n).drop 9).take 16 = toBytesBE 16 n := by
  rw [sealTok_def]
  simp only [sealBody, List.cons_append]
  rw [show (9 : Nat) = 8 + 1 from rfl, List.drop_succ_cons, List.append_assoc,
    List.drop_left' (length_toBytesBE 8 ts), List.append_assoc,
    List.take_left' (length_toBytesBE 16 n)]

/-- Opening a token under a different valid key fails: the re-derived tag
never matches. -/
theorem openTok_sealTok_key_ne (pt : List Nat) (ts n : Nat) {k1 k2 : Nat}
    (h1 : k1 < macP) (h2 : k2 < macP) (hne : k1 ≠ k2) :
    openTok (sealTok pt k1 ts n) k2 = none := by
  have hlt := length_sealTok pt k1 ts n
  have h29 : ¬ (sealTok pt k1 ts n).length < 29 := by omega
  have htake : (sealTok pt k1 ts n).take ((sealTok pt k1 ts n).length - 4)
      = 128 :: (toBytesBE 8 ts ++ (toBytesBE 16 n ++ encAux k1 n 0 pt)) := by
    rw [sealTok_def]
    exact take_append_sub4 _ _ (length_toBytesBE 4 _)
  have hdrop : (sealTok pt k1 ts n).drop ((sealTok pt k1 ts n).length - 4)
      = toBytesBE 4 (mac k1 (128 :: (toBytesBE 8 ts ++ (toBytesBE 16 n ++ encAux k1 n 0 pt)))) := by
    rw [sealTok_def]
    exact drop_append_sub4 _ _ (length_toBytesBE 4 _)
  rw [openTok_body_cons _ _ h29 _ _ htake, if_pos rfl]
  have hcond : (sealTok pt k1 ts n).drop ((sealTok pt k1 ts n).length - 4)
      ≠ toBytesBE 4 (mac k2 (128 :: (toBytesBE 8 ts ++ (toBytesBE 16 n ++ encAux k1 n 0 pt)))) := by
    rw [hdrop]
    exact toBytes4_mac_ne (mac_key_ne _ h1 h2 hne)
  rw [if_neg hcond]

/-- A long-enough input whose version byte is not `0x80` is rejected
before any tag verification or decryption. -/
theorem openTok_bad_version (t : List Nat) (k v : Nat) (hlen : 29 ≤ t.length)
    (hhead : t.head? = some v) (hv : v ≠ 128) : openTok t k = none := by
  cases t with
  | nil => simp at hlen
  | cons a rest =>
    have hva : a ≠ 128 := by
      have : a = v := by simpa using hhead
      omega
    have h29 : ¬ (a :: rest).length < 29 := by omega
    have hsucc : (a :: rest).length - 4 = (rest.length - 4) + 1 := by
      simp only [List.length_cons] at hlen ⊢
      omega
    have htake : (a :: rest).take ((a :: rest).length - 4)
        = a :: rest.take (rest.length - 4) := by
      rw [hsucc]
      rfl
    rw [openTok_body_cons _ _ h29 _ _ htake, if_neg hva]

/-! ## Request-handler layer

Strings (request fields, response messages, tokens in transit) are
modelled as byte lists; `strBytes` embeds Lean string literals used for
the constant messages of the two Python files. -/

def strBytes (s : String) : List Nat := s.data.map Char.toNat

/-- A JSON value sitting in a request field: either a string or a
non-string value (with its Python truthiness and its `str(...)` image,
which `encryption-api.py` uses for type coercion). -/
inductive JVal where
  | jstr (s : List Nat)
  | jother (truthy : Bool) (asStr : List Nat)
deriving DecidableEq

/-- Python truthiness of a request field value (`if not raw: ...`). -/
def pyFalsy : JVal → Bool
  | .jstr s => s.isEmpty
  | .jother t _ => !t

/-- Python `str(...)` of a request field value. -/
def pyStr : JVal → List Nat
  | .jstr s => s
  | .jother _ r => r

/-- Python whitespace bytes recognised by `str.strip()`. -/
def isSpaceByte (b : Nat) : Bool :=
  b = 32 || b = 9 || b = 10 || b = 13 || b = 11 || b = 12

/-- `not s.strip()`: true iff every byte is whitespace. -/
def isBlank (s : List Nat) : Bool := s.all isSpaceByte

/-- State of the `FERNET_KEY` configuration: absent, present but not a
valid Fernet key (with the library's exception text), or valid. -/
inductive KeyEnv where
  | missing
  | malformed (exn : List Nat)
  | valid (k : Nat)
deriving DecidableEq

/-- An HTTP response: status code, JSON body as key/value pairs, and an
optional redirect location. -/
structure Response where
  status : Nat
  body : List (List Nat × List Nat)
  location : Option (List Nat)
deriving DecidableEq

/-- `app.py` `get_cipher`: returns `(cipher, error-message)`. The
malformed branch is `f"Invalid FERNET_KEY: {e}"`, embedding the
exception text. -/
def get_cipher : KeyEnv → Option Nat × Option (List Nat)
  | .missing => (none, some (strBytes "FERNET_KEY is not set"))
  | .malformed e => (none, some (strBytes "Invalid FERNET_KEY: " ++ e))
  | .valid k => (some k, none)

/-- `app.py` `POST /encrypt`.  `rawID` is the `RawID` field of the
request JSON (`none` when the field or the JSON is absent); `ts` and `n`
are the timestamp and the fresh random nonce consumed by the seal. -/
def app_encrypt (env : KeyEnv) (rawID : Option JVal) (ts n : Nat) : Response :=
  match get_cipher env with
  | (_, some err) => ⟨500, [(strBytes "error", err)], none⟩
  | (none, none) => ⟨500, [], none⟩
  | (some k, none) =>
    match rawID with
    | none => ⟨400, [(strBytes "error", strBytes "RawID is required")], none⟩
    | some v =>
      if pyFalsy v then ⟨400, [(strBytes "error", strBytes "RawID is required")], none⟩
      else
        match v with
        | .jother _ _ => ⟨400, [(strBytes "error", strBytes "RawID must be a string")], none⟩
        | .jstr s =>
          if 256 < s.length then ⟨400, [(strBytes "error", strBytes "RawID too long")], none⟩
          else ⟨200, [(strBytes "SurveyID", sealTok s k ts n),
            (strBytes "status", strBytes "success")], none⟩

/-- `app.py` `POST /decrypt`. -/
def app_decrypt (env : KeyEnv) (surveyID : Option JVal) : Response :=
  match get_cipher env with
  | (_, some err) => ⟨500, [(strBytes "error", err)], none⟩
  | (none, none) => ⟨500, [], none⟩
  | (some k, none) =>
    match surveyID with
    | none => ⟨400, [(strBytes "error", strBytes "SurveyID is required")], none⟩
    | some v =>
      if pyFalsy v then ⟨400, [(strBytes "error", strBytes "SurveyID is required")], none⟩
      else
        match v with
        | .jother _ _ => ⟨400, [(strBytes "error", strBytes "SurveyID must be a string")], none⟩
        | .jstr s =>
          match openTok s k with
          | none => ⟨400, [(strBytes "error", strBytes "Invalid or corrupted SurveyID")], none⟩
          | some raw => ⟨200, [(strBytes "RawID", raw),
            (strBytes "status", strBytes "success")], none⟩

/-- `app.py` `GET /health`: unconditionally healthy, whatever the key
environment holds. -/
def app_health (_env : KeyEnv) : Response :=
  ⟨200, [(strBytes "status", strBytes "healthy")], none⟩

/-- Python `str.replace("ID", token)`: replace every non-overlapping
occurrence of the two-byte sequence `"ID"` (73, 68), scanning left to
right. -/
def replaceID (tok : List Nat) : List Nat → List Nat
  | [] => []
  | [c] => [c]
  | a :: b :: rest =>
    if a = 73 ∧ b = 68 then tok ++ replaceID tok rest
    else a :: replaceID tok (b :: rest)

/-- `app.py` `GET /prefill`: validate `raw` and `template`, seal `raw`,
substitute the token for `"ID"` in the template, and redirect (302). -/
def app_prefill (env : KeyEnv) (raw template : List Nat) (ts n : Nat) : Response :=
  if raw = [] ∨ template = [] then
    ⟨400, [(strBytes "error", strBytes "raw and template are required")], none⟩
  else if 256 < raw.length then
    ⟨400, [(strBytes "error", strBytes "raw too long")], none⟩
  else
    match get_cipher env with
    | (_, some err) => ⟨500, [(strBytes "error", err)], none⟩
    | (none, none) => ⟨500, [], none⟩
    | (some k, none) => ⟨302, [], some (replaceID (sealTok raw k ts n) template)⟩

/-- `encryption-api.py` module-level `cipher = initialize_cipher()`:
`None` unless the key is valid. -/
def api_cipher : KeyEnv → Option Nat
  | .valid k => some k
  | _ => none

/-- `encryption-api.py` `GET /health`; `now` is the rendered
`datetime.utcnow().isoformat()` text. -/
def api_health (env : KeyEnv) (now : List Nat) : Response :=
  match api_cipher env with
  | none => ⟨503, [(strBytes "status", strBytes "unhealthy"),
      (strBytes "message", strBytes "Cipher not initialized. Check FERNET_KEY environment variable."),
      (strBytes "timestamp", now)], none⟩
  | some _ => ⟨200, [(strBytes "status", strBytes "healthy"),
      (strBytes "timestamp", now)], none⟩

/-- `encryption-api.py` `POST /encrypt`.  `data` is `none` when
`request.get_json()` yields no (or an empty, hence falsy) JSON object;
otherwise it carries the optional `RawID` field.  Non-string values are
coerced with `str(...)`; there is no length check in this variant. -/
def api_encrypt (env : KeyEnv) (data : Option (Option JVal)) (ts n : Nat) : Response :=
  match api_cipher env with
  | none => ⟨503, [(strBytes "error", strBytes "Encryption service unavailable"),
      (strBytes "message", strBytes "FERNET_KEY not configured")], none⟩
  | some k =>
    match data with
    | none => ⟨400, [(strBytes "error", strBytes "No JSON data provided")], none⟩
    | some rawID =>
      match rawID with
      | none => ⟨400, [(strBytes "error", strBytes "RawID is required")], none⟩
      | some v =>
        if pyFalsy v then ⟨400, [(strBytes "error", strBytes "RawID is required")], none⟩
        else
          if isBlank (pyStr v) then
            ⟨400, [(strBytes "error", strBytes "RawID cannot be empty")], none⟩
          else ⟨200, [(strBytes "SurveyID", sealTok (pyStr v) k ts n),
            (strBytes "status", strBytes "success")], none⟩

/-- `encryption-api.py` `POST /decrypt`.  The failed-decryption branch is
modelled from the spec: a `cryptography` `InvalidToken` from
`cipher.decrypt` is classified by the handler's `except` clause as the
400 "Invalid or corrupted SurveyID" response. -/
def api_decrypt (env : KeyEnv) (data : Option (Option JVal)) : Response :=
  match api_cipher env with
  | none => ⟨503, [(strBytes "error", strBytes "Decryption service unavailable"),
      (strBytes "message", strBytes "FERNET_KEY not configured")], none⟩
  | some k =>
    match data with
    | none => ⟨400, [(strBytes "error", strBytes "No JSON data provided")], none⟩
    | some surveyID =>
      match surveyID with
      | none => ⟨400, [(strBytes "error", strBytes "SurveyID is required")], none⟩
      | some v =>
        if pyFalsy v then ⟨400, [(strBytes "error", strBytes "SurveyID is required")], none⟩
        else
          if isBlank (pyStr v) then
            ⟨400, [(strBytes "error", strBytes "SurveyID cannot be empty")], none⟩
          else
            match openTok (pyStr v) k with
            | none => ⟨400, [(strBytes "error", strBytes "Invalid or corrupted SurveyID"),
                (strBytes "message", strBytes "The provided SurveyID could not be decrypted")], none⟩
            | some raw => ⟨200, [(strBytes "RawID", raw),
                (strBytes "status", strBytes "success")], none⟩

/-- Does some value of the response body contain `needle` as a
contiguous byte subsequence? (used to state the no-leakage claim). -/
def startsWithB : List Nat → List Nat → Bool
  | [], _ => true
  | _ :: _, [] => false
  | a :: as, b :: bs => a == b && startsWithB as bs

def containsSeq (nd : List Nat) : List Nat → Bool
  | [] => startsWithB nd []
  | h :: t' => startsWithB nd (h :: t') || containsSeq nd t'

def mentionsText (e : List Nat) (r : Response) : Bool :=
  r.body.any fun kv => containsSeq e kv.2

/-- A template with no `"ID"` occurrence is left unchanged by the
substitution. -/
theorem replaceID_no_occurrence (tok : List Nat) (t : List Nat)
    (h : containsSeq [73, 68] t = false) : replaceID tok t = t := by
  induction t using replaceID.induct tok with
  | case1 => rfl
  | case2 c => rfl
  | case3 a b rest hab ih =>
    exfalso
    obtain ⟨ha, hb⟩ := hab
    subst ha; subst hb
    simp [containsSeq, startsWithB] at h
  | case4 a b rest hab ih =>
    rw [replaceID, if_neg hab]
    have htail : containsSeq [73, 68] (b :: rest) = false := by
      simp only [containsSeq, Bool.or_eq_false_iff] at h ⊢
      exact h.2
    rw [ih htail]

/-! ## Claim theorems -/

/-- C1: for every valid key `k` and every plaintext `p` with
`0 < len(p) ≤ 256`, opening the token produced by sealing `p` under `k`
returns exactly `p`. -/
theorem claim_C1_round_trip (k : Nat) (pt : List Nat) (ts n : Nat)
    (hk : k < macP) (hlen1 : 0 < pt.length) (hlen2 : pt.length ≤ 256)
    (hbytes : ∀ b ∈ pt, b < 256) (hn : n < 2 ^ 128) :
    openTok (sealTok pt k ts n) k = some pt :=
  openTok_sealTok pt k ts n hbytes hn

theorem claim_C1_round_trip_witness :
    openTok (sealTok (strBytes "TEST-RAW-001") 12345 1700000000 777) 12345
      = some (strBytes "TEST-RAW-001") :=
  claim_C1_round_trip 12345 (strBytes "TEST-RAW-001") 1700000000 777 (by decide)
    (by decide) (by decide) (by decide) (by decide)

/-- C2: replacing any single byte of a token produced by seal under `k`
by a different byte value makes open under `k` fail with the
`InvalidOrCorruptedToken` outcome (`none`); no plaintext is ever
returned for the modified token. -/
theorem claim_C2_tamper_detection (k : Nat) (hk : k < macP) (pt : List Nat)
    (hbytes : ∀ b ∈ pt, b < 256) (ts n i b' : Nat)
    (hi : i < (sealTok pt k ts n).length) (hb' : b' < 256)
    (hne : b' ≠ (sealTok pt k ts n).get ⟨i, hi⟩) :
    openTok ((sealTok pt k ts n).set i b') k = none := by
  have hR : 24 ≤ (toBytesBE 8 ts ++ (toBytesBE 16 n ++ encAux k n 0 pt)).length := by
    simp only [List.length_append, length_toBytesBE, length_encAux]
    omega
  exact openTok_modified_aux (toBytesBE 8 ts ++ (toBytesBE 16 n ++ encAux k n 0 pt))
    (toBytesBE 4 (mac k (sealBody pt k ts n))) k i b' hR rfl
    (mem_sealBody_lt pt k ts n) hi hb' hne

theorem claim_C2_tamper_detection_witness :
    openTok ((sealTok (strBytes "user-42") 999 5 6).set 10 77) 999 = none :=
  claim_C2_tamper_detection 999 (by decide) (strBytes "user-42") (by decide)
    5 6 10 77 (by decide) (by decide) (by decide)

/-- C3: open of the empty string, of the non-token string
`"not-a-token"`, and of any long-enough token whose version byte is not
the supported `0x80` each fail with the `InvalidOrCorruptedToken`
outcome (`none`, the model's only failure kind — no crash), for every
valid key. -/
theorem claim_C3_malformed_rejection (k : Nat) (hk : k < macP) :
    openTok [] k = none ∧
    openTok (strBytes "not-a-token") k = none ∧
    (∀ (t : List Nat) (v : Nat), 29 ≤ t.length → t.head? = some v → v ≠ 128 →
      openTok t k = none) := by
  refine ⟨openTok_short _ _ (by decide), openTok_short _ _ (by decide), ?_⟩
  intro t v hlen hhead hv
  exact openTok_bad_version t k v hlen hhead hv

theorem claim_C3_malformed_rejection_witness :
    openTok (0 :: List.replicate 28 0) 0 = none :=
  (claim_C3_malformed_rejection 0 (by decide)).2.2 (0 :: List.replicate 28 0) 0
    (by decide) (by decide) (by decide)

/-- C7: two seal calls on the same key and plaintext with distinct fresh
nonces produce different tokens. -/
theorem claim_C7_nondeterminism (k ts : Nat) (pt : List Nat) {n1 n2 : Nat}
    (h1 : n1 < 2 ^ 128) (h2 : n2 < 2 ^ 128) (hne : n1 ≠ n2) :
    sealTok pt k ts n1 ≠ sealTok pt k ts n2 := by
  intro heq
  have hs := congrArg (fun l : List Nat => (l.drop 9).take 16) heq
  simp only [sealTok_nonce_slice] at hs
  have hp : (256 : Nat) ^ 16 = 2 ^ 128 := by norm_num
  exact hne (toBytesBE_inj (by rw [hp]; exact h1) (by rw [hp]; exact h2) hs)

theorem claim_C7_nondeterminism_witness :
    sealTok (strBytes "x") 3 4 10 ≠ sealTok (strBytes "x") 3 4 11 :=
  claim_C7_nondeterminism 3 4 (strBytes "x") (by decide) (by decide) (by decide)

/-- C8: a token sealed under a valid key `k1` fails to open under any
different valid key `k2`: open reports the `InvalidOrCorruptedToken`
outcome instead of returning a plaintext. -/
theorem claim_C8_cross_key (pt : List Nat) (ts n : Nat) {k1 k2 : Nat}
    (h1 : k1 < macP) (h2 : k2 < macP) (hne : k1 ≠ k2) :
    openTok (sealTok pt k1 ts n) k2 = none :=
  openTok_sealTok_key_ne pt ts n h1 h2 hne

theorem claim_C8_cross_key_witness :
    openTok (sealTok (strBytes "abc") 111 0 0) 222 = none :=
  claim_C8_cross_key (strBytes "abc") 0 0 (by decide) (by decide) (by decide)

/-- C9: open never enforces a token age: a token that authenticates is
decrypted and returned whatever timestamp is embedded in it (including
the arbitrarily old timestamp 0), and `openTok`'s only failure outcome
is `InvalidOrCorruptedToken` (`none`) — no `ExpiredToken` condition
exists. -/
theorem claim_C9_no_expiry (k : Nat) (hk : k < macP) (pt : List Nat)
    (hbytes : ∀ b ∈ pt, b < 256) (n : Nat) (hn : n < 2 ^ 128) :
    ∀ ts : Nat, openTok (sealTok pt k ts n) k = some pt := fun ts =>
  openTok_sealTok pt k ts n hbytes hn

theorem claim_C9_no_expiry_witness :
    openTok (sealTok (strBytes "old") 42 0 1) 42 = some (strBytes "old") :=
  claim_C9_no_expiry 42 (by decide) (strBytes "old") (by decide) 1 (by decide) 0

/-- C10: with a valid key, for non-empty `raw` (≤ 256 bytes) and
non-empty `template`, prefill seals `raw` and redirects (302) to the
template with every `"ID"` occurrence replaced by the token; a template
without `"ID"` is redirected to unchanged. -/
theorem claim_C10_prefill (k ts n : Nat) (raw template : List Nat)
    (hraw : raw ≠ []) (htemp : template ≠ []) (hlen : raw.length ≤ 256) :
    app_prefill (KeyEnv.valid k) raw template ts n
      = ⟨302, [], some (replaceID (sealTok raw k ts n) template)⟩ ∧
    (containsSeq [73, 68] template = false →
      replaceID (sealTok raw k ts n) template = template) := by
  constructor
  · unfold app_prefill
    rw [if_neg (by simp [hraw, htemp]), if_neg (by omega)]
    rfl
  · exact replaceID_no_occurrence _ _

theorem claim_C10_prefill_witness :
    app_prefill (KeyEnv.valid 9) (strBytes "u1") (strBytes "form?f=ID&g=ID") 2 3
      = ⟨302, [], some (replaceID (sealTok (strBytes "u1") 9 2 3)
          (strBytes "form?f=ID&g=ID"))⟩ :=
  (claim_C10_prefill 9 2 3 (strBytes "u1") (strBytes "form?f=ID&g=ID")
    (by decide) (by decide) (by decide)).1

/-- C4 counterexample: the claim (seal rejects whitespace-only
plaintexts and plaintexts longer than 256) is false on the code —
`app.py` happily seals the whitespace-only plaintext `" "` (it never
strips), and `encryption-api.py` happily seals a 257-character plaintext
(it has no length check): both return 200 with a token. -/
theorem claim_C4_policy_counterexample :
    app_encrypt (KeyEnv.valid 0) (some (JVal.jstr [32])) 0 0
      = ⟨200, [(strBytes "SurveyID", sealTok [32] 0 0 0),
          (strBytes "status", strBytes "success")], none⟩ ∧
    api_encrypt (KeyEnv.valid 0) (some (some (JVal.jstr (List.replicate 257 65)))) 0 0
      = ⟨200, [(strBytes "SurveyID", sealTok (List.replicate 257 65) 0 0 0),
          (strBytes "status", strBytes "success")], none⟩ :=
  ⟨rfl, rfl⟩

/-- C4 (amended): `app.py`'s encrypt rejects an absent/empty `RawID` and
one longer than 256 characters but seals whitespace-only ones;
`encryption-api.py`'s encrypt rejects empty and whitespace-only `RawID`s
but imposes no length bound. -/
theorem claim_C4_policy_amended (k ts n : Nat) :
    (app_encrypt (KeyEnv.valid k) (some (JVal.jstr [])) ts n
      = ⟨400, [(strBytes "error", strBytes "RawID is required")], none⟩) ∧
    (∀ s : List Nat, 256 < s.length →
      app_encrypt (KeyEnv.valid k) (some (JVal.jstr s)) ts n
        = ⟨400, [(strBytes "error", strBytes "RawID too long")], none⟩) ∧
    (∀ s : List Nat, s ≠ [] → isBlank s = true →
      api_encrypt (KeyEnv.valid k) (some (some (JVal.jstr s))) ts n
        = ⟨400, [(strBytes "error", strBytes "RawID cannot be empty")], none⟩) ∧
    (∀ s : List Nat, s ≠ [] → isBlank s = true → s.length ≤ 256 →
      app_encrypt (KeyEnv.valid k) (some (JVal.jstr s)) ts n
        = ⟨200, [(strBytes "SurveyID", sealTok s k ts n),
            (strBytes "status", strBytes "success")], none⟩) ∧
    (∀ s : List Nat, isBlank s = false →
      api_encrypt (KeyEnv.valid k) (some (some (JVal.jstr s))) ts n
        = ⟨200, [(strBytes "SurveyID", sealTok s k ts n),
            (strBytes "status", strBytes "success")], none⟩) := by
  refine ⟨rfl, ?_, ?_, ?_, ?_⟩
  · intro s h
    cases s with
    | nil => simp at h
    | cons a t =>
      simp only [app_encrypt, get_cipher, pyFalsy, List.isEmpty_cons,
        Bool.false_eq_true, if_false]
      rw [if_pos h]
  · intro s hne hblank
    cases s with
    | nil => exact absurd rfl hne
    | cons a t =>
      simp only [api_encrypt, api_cipher, pyFalsy, pyStr, List.isEmpty_cons,
        Bool.false_eq_true, if_false]
      rw [if_pos hblank]
  · intro s hne hblank hlen
    cases s with
    | nil => exact absurd rfl hne
    | cons a t =>
      simp only [app_encrypt, get_cipher, pyFalsy, List.isEmpty_cons,
        Bool.false_eq_true, if_false]
      rw [if_neg (by omega)]
  · intro s hblank
    cases s with
    | nil => simp [isBlank] at hblank
    | cons a t =>
      simp only [api_encrypt, api_cipher, pyFalsy, pyStr, List.isEmpty_cons,
        Bool.false_eq_true, if_false]
      rw [if_neg (by simp [hblank])]

set_option maxRecDepth 4000 in
theorem claim_C4_policy_amended_witness :
    app_encrypt (KeyEnv.valid 1) (some (JVal.jstr (List.replicate 257 66))) 0 0
      = ⟨400, [(strBytes "error", strBytes "RawID too long")], none⟩ ∧
    api_encrypt (KeyEnv.valid 1) (some (some (JVal.jstr [32, 9]))) 0 0
      = ⟨400, [(strBytes "error", strBytes "RawID cannot be empty")], none⟩ :=
  ⟨(claim_C4_policy_amended 1 0 0).2.1 _ (by decide),
   (claim_C4_policy_amended 1 0 0).2.2.1 _ (by decide) (by decide)⟩

/-- C5 counterexample: with no key configured, `app.py`'s `/health`
still answers 200 `{"status": "healthy"}` — the health surface does not
report the service as unavailable, contradicting the claim. -/
theorem claim_C5_degraded_counterexample :
    app_health KeyEnv.missing
      = ⟨200, [(strBytes "status", strBytes "healthy")], none⟩ ∧
    (app_health KeyEnv.missing).status ≠ 503 :=
  ⟨rfl, by decide⟩

/-- C5 (amended): with a missing or malformed key, every seal/open call
on both variants reports the key-configuration failure (`app.py`: 500
with the configuration reason; `encryption-api.py`: 503 service
unavailable) and never a token, and `encryption-api.py`'s health surface
reports 503 unhealthy — but `app.py`'s `/health` reports 200
healthy unconditionally. -/
theorem claim_C5_degraded_amended :
    (∀ raw ts n, app_encrypt KeyEnv.missing raw ts n
      = ⟨500, [(strBytes "error", strBytes "FERNET_KEY is not set")], none⟩) ∧
    (∀ e raw ts n, app_encrypt (KeyEnv.malformed e) raw ts n
      = ⟨500, [(strBytes "error", strBytes "Invalid FERNET_KEY: " ++ e)], none⟩) ∧
    (∀ sv, app_decrypt KeyEnv.missing sv
      = ⟨500, [(strBytes "error", strBytes "FERNET_KEY is not set")], none⟩) ∧
    (∀ e sv, app_decrypt (KeyEnv.malformed e) sv
      = ⟨500, [(strBytes "error", strBytes "Invalid FERNET_KEY: " ++ e)], none⟩) ∧
    (∀ data ts n, api_encrypt KeyEnv.missing data ts n
      = ⟨503, [(strBytes "error", strBytes "Encryption service unavailable"),
          (strBytes "message", strBytes "FERNET_KEY not configured")], none⟩) ∧
    (∀ e data ts n, api_encrypt (KeyEnv.malformed e) data ts n
      = ⟨503, [(strBytes "error", strBytes "Encryption service unavailable"),
          (strBytes "message", strBytes "FERNET_KEY not configured")], none⟩) ∧
    (∀ data, api_decrypt KeyEnv.missing data
      = ⟨503, [(strBytes "error", strBytes "Decryption service unavailable"),
          (strBytes "message", strBytes "FERNET_KEY not configured")], none⟩) ∧
    (∀ now, api_health KeyEnv.missing now
      = ⟨503, [(strBytes "status", strBytes "unhealthy"),
          (strBytes "message",
            strBytes "Cipher not initialized. Check FERNET_KEY environment variable."),
          (strBytes "timestamp", now)], none⟩) ∧
    (∀ env, app_health env = ⟨200, [(strBytes "status", strBytes "healthy")], none⟩) :=
  ⟨fun _ _ _ => rfl, fun _ _ _ _ => rfl, fun _ => rfl, fun _ _ => rfl,
   fun _ _ _ => rfl, fun _ _ _ _ => rfl, fun _ => rfl, fun _ => rfl, fun _ => rfl⟩

/-- C6 counterexample: the claim (the response body never contains
internal exception text) is false — with a malformed key, `app.py`'s
encrypt response embeds the library exception text into
`"Invalid FERNET_KEY: {e}"`. -/
theorem claim_C6_leakage_counterexample :
    mentionsText (strBytes "Incorrect padding")
      (app_encrypt (KeyEnv.malformed (strBytes "Incorrect padding"))
        (some (JVal.jstr [65])) 0 0) = true := by decide

/-- C6 (amended): responses on the malformed-key path embed the internal
exception text (`"Invalid FERNET_KEY: {e}"`, in both handlers of
`app.py`); with a valid key a failed decryption produces only the fixed
message `"Invalid or corrupted SurveyID"`, with no internal text. -/
theorem claim_C6_leakage_amended (e : List Nat) (raw sv : Option JVal)
    (ts n k : Nat) :
    app_encrypt (KeyEnv.malformed e) raw ts n
      = ⟨500, [(strBytes "error", strBytes "Invalid FERNET_KEY: " ++ e)], none⟩ ∧
    app_decrypt (KeyEnv.malformed e) sv
      = ⟨500, [(strBytes "error", strBytes "Invalid FERNET_KEY: " ++ e)], none⟩ ∧
    (∀ s : List Nat, s ≠ [] → openTok s k = none →
      app_decrypt (KeyEnv.valid k) (some (JVal.jstr s))
        = ⟨400, [(strBytes "error", strBytes "Invalid or corrupted SurveyID")], none⟩) := by
  refine ⟨rfl, rfl, ?_⟩
  intro s hne hopen
  cases s with
  | nil => exact absurd rfl hne
  | cons a t =>
    simp only [app_decrypt, get_cipher, pyFalsy, List.isEmpty_cons,
      Bool.false_eq_true, if_false]
    rw [hopen]

theorem claim_C6_leakage_amended_witness :
    app_decrypt (KeyEnv.valid 5) (some (JVal.jstr (strBytes "not-a-token")))
      = ⟨400, [(strBytes "error", strBytes "Invalid or corrupted SurveyID")], none⟩ :=
  (claim_C6_leakage_amended (strBytes "boom") none none 0 0 5).2.2
    (strBytes "not-a-token") (by decide) (by decide)

end IdMasker
